import Mathlib

/-!
Shallow embedding of the `join-string` Rust crate (`src/lib.rs`).

Modelling conventions:
* An iterator `I` is embedded as the `List` of items it will yield, in pull
  order; `next` is head/tail.
* A `Display` (or `Debug`) implementation for a type `α` is embedded as a
  function `α → String` giving the text the implementation renders.
* A text or byte sink (`std::fmt::Write` / `std::io::Write`) is embedded as a
  state type `σ` with a write operation `σ → String → σ × Option ε`: writing a
  piece of text to the sink yields the new sink state and, when the sink
  fails, the error `e : ε` it reports.  The state is returned in either case,
  so partially written output remains observable.
* An `AsRef<str>` implementation for a type `T` is embedded as a function
  `T → String` giving the borrowed string view.
-/

namespace JoinString

/-- `struct Joiner<I, S>` from `src/lib.rs`: captures the backing iterator
(modelled as the list of items still to be pulled, in order) and the
separator value. -/
structure Joiner (α : Type) (S : Type) where
  iter : List α
  sep : S

/-- `Joiner::new(iter, sep)` — constructs the record; no validation. -/
def Joiner.new (iter : List α) (sep : S) : Joiner α S :=
  { iter := iter, sep := sep }

/-- The loop body of `write_fmt`/`write_io`:
`for item in self.iter { write!(writer, "{}{}", self.sep, item)?; }` —
for each remaining item, write the separator's text and then the item's text,
propagating a sink error as soon as one occurs. `dI` is the item's
`Display` implementation; `sepText` is the separator's rendered text. -/
def writeSepItems (w : σ → String → σ × Option ε) (sepText : String)
    (dI : α → String) : σ → List α → σ × Option ε
  | st, [] => (st, none)
  | st, item :: rest =>
    match w st sepText with
    | (st1, some e) => (st1, some e)
    | (st1, none) =>
      match w st1 (dI item) with
      | (st2, some e) => (st2, some e)
      | (st2, none) => writeSepItems w sepText dI st2 rest

/-- `Joiner::write_fmt(self, writer)`: pull the first item; if present write
its text, then run the separator/item loop over the rest; an empty iterator
writes nothing and succeeds. -/
def Joiner.write_fmt (j : Joiner α S) (dI : α → String) (dS : S → String)
    (w : σ → String → σ × Option ε) (st : σ) : σ × Option ε :=
  match j.iter with
  | [] => (st, none)
  | first :: rest =>
    match w st (dI first) with
    | (st1, some e) => (st1, some e)
    | (st1, none) => writeSepItems w (dS j.sep) dI st1 rest

/-- `Joiner::write_io(self, writer)`: same traversal as `write_fmt`, writing
through a byte-oriented sink (the text rendered by the `Display`
implementations reaches the sink UTF-8 encoded; the byte-buffer sink
`byteWrite` below makes the encoding explicit). -/
def Joiner.write_io (j : Joiner α S) (dI : α → String) (dS : S → String)
    (w : σ → String → σ × Option ε) (st : σ) : σ × Option ε :=
  match j.iter with
  | [] => (st, none)
  | first :: rest =>
    match w st (dI first) with
    | (st1, some e) => (st1, some e)
    | (st1, none) => writeSepItems w (dS j.sep) dI st1 rest

/-- The in-memory `String` buffer used by `into_string`: writing appends and
never fails (`std::fmt::Write for String` cannot report an error). -/
def strWrite (s x : String) : String × Option Unit :=
  (s ++ x, none)

/-- `Joiner::into_string(self)`: create an empty `String` buffer, run
`write_fmt` into it discarding the (always-`Ok`) result, and return the
buffer. -/
def Joiner.into_string (j : Joiner α S) (dI : α → String) (dS : S → String) :
    String :=
  (j.write_fmt dI dS strWrite "").1

/-- `impl Display for Joiner` (requires `I: Clone`): clone the backing
iterator, run the same first/rest traversal over the clone writing into the
formatter's sink, and leave the original `Joiner` untouched — the unchanged
`Joiner` is returned alongside the sink result to make non-consumption
explicit. Each loop iteration calls `self.sep.fmt(f)` then `item.fmt(f)`,
exactly the separator/item loop. -/
def Joiner.displayFmt (j : Joiner α S) (dI : α → String) (dS : S → String)
    (w : σ → String → σ × Option ε) (st : σ) :
    (σ × Option ε) × Joiner α S :=
  (match j.iter with
   | [] => (st, none)
   | first :: rest =>
     match w st (dI first) with
     | (st1, some e) => (st1, some e)
     | (st1, none) => writeSepItems w (dS j.sep) dI st1 rest,
   j)

/-- The text `impl Display for Joiner` produces when rendered into an empty
string buffer (e.g. by `format!("{}", joiner)`). -/
def Joiner.displayString (j : Joiner α S) (dI : α → String)
    (dS : S → String) : String :=
  ((j.displayFmt dI dS strWrite "").1).1

/-- `impl Debug for Joiner` (requires `I: Clone`, `I::Item: Debug`): identical
traversal to `Display`, but each item is rendered with its `Debug`
implementation `dbgI`, while the separator is still rendered with its
`Display` implementation `dS`. -/
def Joiner.debugFmt (j : Joiner α S) (dbgI : α → String) (dS : S → String)
    (w : σ → String → σ × Option ε) (st : σ) :
    (σ × Option ε) × Joiner α S :=
  (match j.iter with
   | [] => (st, none)
   | first :: rest =>
     match w st (dbgI first) with
     | (st1, some e) => (st1, some e)
     | (st1, none) => writeSepItems w (dS j.sep) dbgI st1 rest,
   j)

/-- The text `impl Debug for Joiner` produces when rendered into an empty
string buffer (e.g. by `format!("{:?}", joiner)`). -/
def Joiner.debugString (j : Joiner α S) (dbgI : α → String)
    (dS : S → String) : String :=
  ((j.debugFmt dbgI dS strWrite "").1).1

/-- `Join::join(self, sep)` / the free function `join(elements, sep)`:
wraps the element sequence and separator in a `Joiner`. -/
def join (elements : List α) (sep : S) : Joiner α S :=
  { iter := elements, sep := sep }

-- ===========================================================================
--      DisplayWrapper and DisplayIter
-- ===========================================================================

/-- `struct DisplayWrapper<T: AsRef<str>>(T)` — wraps a string-like value. -/
structure DisplayWrapper (T : Type) where
  val : T

/-- `impl Display for DisplayWrapper`: `self.0.as_ref().fmt(f)` — renders the
wrapped value's borrowed string view verbatim (`str`'s `Display` writes the
string itself). `asRef` is the wrapped type's `AsRef<str>` implementation. -/
def DisplayWrapper.display (asRef : T → String) (w : DisplayWrapper T) :
    String :=
  asRef w.val

/-- `struct DisplayIter<I>` — iterator facade mapping an iterator over
string-like items to an iterator over `DisplayWrapper`s. The source cursor is
embedded as the list of items it will still yield, in pull order. -/
structure DisplayIter (T : Type) where
  iter : List T

-- Semantics of the source cursor's own methods on the list embedding
-- (these are what `I`'s `Iterator`/`DoubleEndedIterator`/`ExactSizeIterator`
-- methods compute for a cursor that will yield the listed items in order).

/-- Source cursor `next`: yield the head, keep the tail. -/
def srcNext : List T → Option (T × List T)
  | [] => none
  | x :: r => some (x, r)

/-- Source cursor `last`: the final item, if any. -/
def srcLast (l : List T) : Option T :=
  l.getLast?

/-- Source cursor `count`: number of remaining items. -/
def srcCount (l : List T) : Nat :=
  l.length

/-- Source cursor `nth n`: skip `n` items, yield the next one. -/
def srcNth (n : Nat) (l : List T) : Option (T × List T) :=
  match l.drop n with
  | [] => none
  | x :: r => some (x, r)

/-- Source cursor `size_hint`: exact for a list-backed cursor. -/
def srcSizeHint (l : List T) : Nat × Option Nat :=
  (l.length, some l.length)

/-- Source cursor `len` (`ExactSizeIterator`). -/
def srcLen (l : List T) : Nat :=
  l.length

/-- Source cursor `next_back`: yield the last item, keep the front. -/
def srcNextBack (l : List T) : Option (T × List T) :=
  match l.reverse with
  | [] => none
  | x :: r => some (x, r.reverse)

/-- Source cursor `nth_back n`: skip `n` items from the back, yield the next
one from the back. -/
def srcNthBack (n : Nat) (l : List T) : Option (T × List T) :=
  match l.reverse.drop n with
  | [] => none
  | x :: r => some (x, r.reverse)

/-- `DisplayIter::next`: `self.iter.next()`, wrapping a yielded item in
`DisplayWrapper`. -/
def DisplayIter.next (d : DisplayIter T) :
    Option (DisplayWrapper T × DisplayIter T) :=
  match srcNext d.iter with
  | some (item, rest) => some (⟨item⟩, ⟨rest⟩)
  | none => none

/-- `DisplayIter::last`: `self.iter.last()`, wrapped. -/
def DisplayIter.last (d : DisplayIter T) : Option (DisplayWrapper T) :=
  match srcLast d.iter with
  | some item => some ⟨item⟩
  | none => none

/-- `DisplayIter::count`: `self.iter.count()`. -/
def DisplayIter.count (d : DisplayIter T) : Nat :=
  srcCount d.iter

/-- `DisplayIter::nth`: `self.iter.nth(n).map(DisplayWrapper)`. -/
def DisplayIter.nth (n : Nat) (d : DisplayIter T) :
    Option (DisplayWrapper T × DisplayIter T) :=
  match srcNth n d.iter with
  | some (item, rest) => some (⟨item⟩, ⟨rest⟩)
  | none => none

/-- `DisplayIter::size_hint`: `self.iter.size_hint()`. -/
def DisplayIter.size_hint (d : DisplayIter T) : Nat × Option Nat :=
  srcSizeHint d.iter

/-- `DisplayIter::len` (`ExactSizeIterator`): `self.iter.len()`. -/
def DisplayIter.len (d : DisplayIter T) : Nat :=
  srcLen d.iter

/-- `DisplayIter::next_back`: `self.iter.next_back()`, wrapped. -/
def DisplayIter.next_back (d : DisplayIter T) :
    Option (DisplayWrapper T × DisplayIter T) :=
  match srcNextBack d.iter with
  | some (item, rest) => some (⟨item⟩, ⟨rest⟩)
  | none => none

/-- `DisplayIter::nth_back`: `self.iter.nth_back(n)`, wrapped. -/
def DisplayIter.nth_back (n : Nat) (d : DisplayIter T) :
    Option (DisplayWrapper T × DisplayIter T) :=
  match srcNthBack n d.iter with
  | some (item, rest) => some (⟨item⟩, ⟨rest⟩)
  | none => none

/-- `impl Clone for DisplayIter`: clones only the source cursor (its position
state, i.e. the list of items still to be yielded). -/
def DisplayIter.clone (d : DisplayIter T) : DisplayIter T :=
  { iter := d.iter }

/-- Drives a cursor with a step function for at most `fuel` pulls, collecting
the yielded items in pull order. With `fuel` at least the number of remaining
items this is the full yield sequence. -/
def drive (step : ι → Option (β × ι)) : Nat → ι → List β
  | 0, _ => []
  | fuel + 1, i =>
    match step i with
    | none => []
    | some (x, i2) => x :: drive step fuel i2

/-- `Join::join_str(self, sep)` / the free function `join_str(elements, sep)`:
`Joiner { iter: DisplayIter { iter: self.into_iter() }, sep: DisplayWrapper(sep) }`.
The `Joiner`'s cursor is the `DisplayIter` facade; in the list embedding its
pull-order item sequence is obtained by driving `DisplayIter::next`. -/
def join_str (elements : List T) (sep : U) :
    Joiner (DisplayWrapper T) (DisplayWrapper U) :=
  { iter := drive DisplayIter.next elements.length ⟨elements⟩,
    sep := ⟨sep⟩ }

-- ===========================================================================
--      Sinks and traversal-as-piece-list
-- ===========================================================================

/-- UTF-8 encoding of a string as a byte list (what `write!` pushes through a
`std::io::Write`): the byte list underlying `String.toUTF8`. -/
def utf8 (s : String) : List UInt8 :=
  s.toUTF8.data.toList

/-- An in-memory byte buffer sink (e.g. `Vec<u8>`): writing appends the UTF-8
bytes of the text and never fails. -/
def byteWrite (b : List UInt8) (x : String) : List UInt8 × Option Unit :=
  (b ++ utf8 x, none)

/-- The sequence of texts a join traversal writes to its sink, in order:
nothing for an empty iterator, otherwise the first item's text followed by
separator-text/item-text pairs for each remaining item. -/
def pieces (j : Joiner α S) (dI : α → String) (dS : S → String) :
    List String :=
  match j.iter with
  | [] => []
  | first :: rest => dI first :: rest.flatMap (fun x => [dS j.sep, dI x])

/-- Writes a list of texts to a sink one by one, stopping at (and returning)
the first error a write reports. -/
def runPieces (w : σ → String → σ × Option ε) : σ → List String → σ × Option ε
  | st, [] => (st, none)
  | st, p :: ps =>
    match w st p with
    | (st1, some e) => (st1, some e)
    | (st1, none) => runPieces w st1 ps

/-- Concatenation of a list of texts. -/
def concatAll : List String → String
  | [] => ""
  | x :: xs => x ++ concatAll xs

/-- An instrumented sink for observing error behaviour: the state is the
buffer written so far together with the number of write calls made; the
`failAt` schedule says whether the `n`-th write call fails and with which
error. A failing write appends nothing; every write call bumps the counter. -/
def instWrite (failAt : Nat → Option ε) :
    String × Nat → String → (String × Nat) × Option ε
  | (buf, n), x =>
    match failAt n with
    | some e => ((buf, n + 1), some e)
    | none => ((buf ++ x, n + 1), none)

/-- First failure of the schedule `failAt` among write calls
`n, n+1, …, n+m-1`, as an offset from `n`, together with the error. -/
def firstFailFrom (failAt : Nat → Option ε) : Nat → Nat → Option (Nat × ε)
  | _, 0 => none
  | n, m + 1 =>
    match failAt n with
    | some e => some (0, e)
    | none => (firstFailFrom failAt (n + 1) m).map (fun p => (p.1 + 1, p.2))

-- ===========================================================================
--      Specification-side rendering and splitting
-- ===========================================================================

/-- Specification-side rendering (from the spec's traversal description):
the first element's text, then for each subsequent element the separator's
text followed by that element's text — empty input gives the empty string. -/
def renderSpec (sep : String) : List String → String
  | [] => ""
  | [x] => x
  | x :: y :: ys => x ++ sep ++ renderSpec sep (y :: ys)

/-- The text written by the separator/item loop: for each item, the
separator's text then the item's text, concatenated. -/
def tailRender (sep : String) (dI : α → String) : List α → String
  | [] => ""
  | x :: xs => sep ++ dI x ++ tailRender sep dI xs

/-- Join a list of character lists with a separator between consecutive
entries (character-list analogue of `renderSpec`). -/
def joinL (sep : List Char) : List (List Char) → List Char
  | [] => []
  | [x] => x
  | x :: y :: ys => x ++ sep ++ joinL sep (y :: ys)

/-- Modelled from the spec: the standard leftmost-match substring-splitting
function (`split` in the round-trip property; cf. Rust's `str::split` with a
non-empty separator), fuel-indexed for structural recursion. With
`fuel ≥ s.length` the fuel never runs out: whenever the (non-empty) separator
occurs as a prefix, an (empty-so-far) token boundary is emitted and splitting
continues after the separator; otherwise the leading character is prepended
to the first token of the split of the remainder. -/
def splitFuel (sep : List Char) : Nat → List Char → List (List Char)
  | _, [] => [[]]
  | 0, s => [s]
  | fuel + 1, c :: rest =>
    if sep ≠ [] ∧ sep.isPrefixOf (c :: rest) then
      [] :: splitFuel sep fuel (rest.drop (sep.length - 1))
    else
      match splitFuel sep fuel rest with
      | [] => [[c]]
      | t :: ts => (c :: t) :: ts

/-- Modelled from the spec: standard substring splitting on character lists
(adequately fuelled `splitFuel`). -/
def splitL (sep : List Char) (s : List Char) : List (List Char) :=
  splitFuel sep s.length s

/-- Modelled from the spec: standard substring splitting at the `String`
level, splitting `text` on the separator `sep`. -/
def splitStr (text sep : String) : List String :=
  (splitL sep.data text.data).map String.mk

-- ===========================================================================
--      Helper lemmas
-- ===========================================================================

theorem writeSepItems_strWrite (sep : String) (dI : α → String) :
    ∀ (l : List α) (b : String),
      writeSepItems strWrite sep dI b l = (b ++ tailRender sep dI l, none) := by
  intro l
  induction l with
  | nil => intro b; simp [writeSepItems, tailRender]
  | cons x xs ih =>
    intro b
    simp [writeSepItems, tailRender, strWrite, ih, String.append_assoc]

theorem into_string_eq_tailRender (j : Joiner α S) (dI : α → String)
    (dS : S → String) :
    j.into_string dI dS =
      match j.iter with
      | [] => ""
      | first :: rest => dI first ++ tailRender (dS j.sep) dI rest := by
  cases h : j.iter with
  | nil => simp [Joiner.into_string, Joiner.write_fmt, h]
  | cons first rest =>
    simp [Joiner.into_string, Joiner.write_fmt, h, strWrite,
      writeSepItems_strWrite]

theorem renderSpec_eq_tailRender (sep : String) (dI : α → String) :
    ∀ (l : List α), renderSpec sep (l.map dI) =
      match l with
      | [] => ""
      | first :: rest => dI first ++ tailRender sep dI rest := by
  intro l
  induction l with
  | nil => rfl
  | cons x xs ih =>
    cases xs with
    | nil => simp [renderSpec, tailRender]
    | cons y ys =>
      simp only [List.map_cons, renderSpec] at ih ⊢
      rw [ih]
      simp [tailRender, String.append_assoc]

/-- Core rendering identity: `into_string` computes exactly the
specification's traversal over the items' rendered texts. -/
theorem into_string_eq_renderSpec (j : Joiner α S) (dI : α → String)
    (dS : S → String) :
    j.into_string dI dS = renderSpec (dS j.sep) (j.iter.map dI) := by
  rw [into_string_eq_tailRender, renderSpec_eq_tailRender]
  cases j.iter <;> rfl

theorem write_io_eq_write_fmt (j : Joiner α S) (dI : α → String)
    (dS : S → String) (w : σ → String → σ × Option ε) (st : σ) :
    j.write_io dI dS w st = j.write_fmt dI dS w st := rfl

theorem writeSepItems_eq_runPieces (w : σ → String → σ × Option ε)
    (sep : String) (dI : α → String) :
    ∀ (l : List α) (st : σ),
      writeSepItems w sep dI st l =
        runPieces w st (l.flatMap (fun x => [sep, dI x])) := by
  intro l
  induction l with
  | nil => intro st; rfl
  | cons x xs ih =>
    intro st
    simp only [writeSepItems, List.flatMap_cons, List.cons_append,
      List.nil_append, runPieces]
    cases h1 : w st sep with
    | mk st1 r1 =>
      cases r1 with
      | none =>
        simp only [runPieces]
        cases h2 : w st1 (dI x) with
        | mk st2 r2 =>
          cases r2 with
          | none => exact ih st2
          | some e => rfl
      | some e => rfl

/-- The traversal of `write_fmt` is the sequential write of its piece list. -/
theorem write_fmt_eq_runPieces (j : Joiner α S) (dI : α → String)
    (dS : S → String) (w : σ → String → σ × Option ε) (st : σ) :
    j.write_fmt dI dS w st = runPieces w st (pieces j dI dS) := by
  cases h : j.iter with
  | nil => simp [Joiner.write_fmt, pieces, h, runPieces]
  | cons first rest =>
    simp only [Joiner.write_fmt, pieces, h, runPieces]
    cases h1 : w st (dI first) with
    | mk st1 r1 =>
      cases r1 with
      | none => exact writeSepItems_eq_runPieces w (dS j.sep) dI rest st1
      | some e => rfl

theorem runPieces_strWrite :
    ∀ (ps : List String) (b : String),
      runPieces strWrite b ps = (b ++ concatAll ps, none) := by
  intro ps
  induction ps with
  | nil => intro b; simp [runPieces, concatAll]
  | cons p ps ih =>
    intro b
    simp [runPieces, strWrite, concatAll, ih, String.append_assoc]

theorem into_string_eq_concatAll_pieces (j : Joiner α S) (dI : α → String)
    (dS : S → String) :
    j.into_string dI dS = concatAll (pieces j dI dS) := by
  simp [Joiner.into_string, write_fmt_eq_runPieces, runPieces_strWrite]

theorem utf8_append (a b : String) : utf8 (a ++ b) = utf8 a ++ utf8 b := by
  simp [utf8, String.toUTF8, String.data_append]

theorem runPieces_byteWrite :
    ∀ (ps : List String) (b : List UInt8),
      runPieces byteWrite b ps = (b ++ utf8 (concatAll ps), none) := by
  intro ps
  induction ps with
  | nil =>
    intro b
    simp [runPieces, concatAll, utf8, String.toUTF8]
  | cons p ps ih =>
    intro b
    simp [runPieces, byteWrite, concatAll, ih, utf8_append, List.append_assoc]

/-- Running the piece writes through the instrumented sink: if the failure
schedule is clean across the traversal, everything is appended; otherwise the
buffer holds exactly the pieces before the first scheduled failure, the
counter shows the failing write was the last call made, and its error is
returned. -/
theorem runPieces_instWrite (failAt : Nat → Option ε) :
    ∀ (ps : List String) (buf : String) (n : Nat),
      runPieces (instWrite failAt) (buf, n) ps =
        match firstFailFrom failAt n ps.length with
        | none => ((buf ++ concatAll ps, n + ps.length), none)
        | some (k, e) => ((buf ++ concatAll (ps.take k), n + k + 1), some e) := by
  intro ps
  induction ps with
  | nil => intro buf n; simp [runPieces, firstFailFrom, concatAll]
  | cons p ps ih =>
    intro buf n
    simp only [runPieces, instWrite, List.length_cons, firstFailFrom]
    cases hf : failAt n with
    | some e => simp [concatAll]
    | none =>
      simp only []
      rw [ih]
      cases hff : firstFailFrom failAt (n + 1) ps.length with
      | none =>
        simp only [Option.map, Prod.mk.injEq, concatAll]
        refine ⟨⟨?_, by omega⟩, trivial⟩
        rw [String.append_assoc]
      | some ke =>
        simp only [Option.map, Prod.mk.injEq, List.take_succ_cons, concatAll]
        refine ⟨⟨?_, by omega⟩, trivial⟩
        rw [String.append_assoc]

theorem drive_next (l : List T) :
    drive DisplayIter.next l.length (⟨l⟩ : DisplayIter T) =
      l.map DisplayWrapper.mk := by
  induction l with
  | nil => rfl
  | cons x xs ih => simp [drive, DisplayIter.next, srcNext, ih]

theorem drive_next_back (l : List T) :
    drive DisplayIter.next_back l.length (⟨l⟩ : DisplayIter T) =
      l.reverse.map DisplayWrapper.mk := by
  induction l using List.reverseRecOn with
  | nil => rfl
  | append_singleton xs x ih =>
    have hlen : (xs ++ [x]).length = xs.length + 1 := by simp
    rw [hlen]
    simp [drive, DisplayIter.next_back, srcNextBack, ih]

theorem splitFuel_ne_nil (sep : List Char) :
    ∀ (fuel : Nat) (s : List Char), splitFuel sep fuel s ≠ [] := by
  intro fuel
  induction fuel with
  | zero => intro s; cases s <;> simp [splitFuel]
  | succ n ih =>
    intro s
    cases s with
    | nil => simp [splitFuel]
    | cons c rest =>
      simp only [splitFuel]
      split
      · simp
      · split <;> simp

theorem joinL_cons_of_ne_nil (sep : List Char) (x : List Char)
    {l : List (List Char)} (h : l ≠ []) :
    joinL sep (x :: l) = x ++ sep ++ joinL sep l := by
  cases l with
  | nil => exact absurd rfl h
  | cons y ys => rfl

theorem joinL_splitFuel (sep : List Char) (hsep : sep ≠ []) :
    ∀ (fuel : Nat) (s : List Char), s.length ≤ fuel →
      joinL sep (splitFuel sep fuel s) = s := by
  intro fuel
  induction fuel with
  | zero =>
    intro s h
    have hs : s = [] := List.eq_nil_of_length_eq_zero (Nat.le_zero.mp h)
    subst hs; rfl
  | succ n ih =>
    intro s h
    cases s with
    | nil => rfl
    | cons c rest =>
      simp only [splitFuel]
      by_cases hp : sep ≠ [] ∧ sep.isPrefixOf (c :: rest)
      · rw [if_pos hp]
        rw [joinL_cons_of_ne_nil sep [] (splitFuel_ne_nil sep n _)]
        have hlen : (rest.drop (sep.length - 1)).length ≤ n := by
          have hd := List.length_drop (sep.length - 1) rest
          have hlc : rest.length + 1 ≤ n + 1 := by simpa using h
          omega
        rw [ih _ hlen]
        have hpre : sep ++ List.drop sep.length (c :: rest) = c :: rest :=
          List.prefix_iff_eq_append.mp (List.isPrefixOf_iff_prefix.mp hp.2)
        obtain ⟨m, hm⟩ : ∃ m, sep.length = m + 1 := by
          cases hse : sep with
          | nil => exact absurd hse hsep
          | cons a as => exact ⟨as.length, by simp⟩
        rw [List.nil_append, show sep.length - 1 = m by omega]
        rw [hm, List.drop_succ_cons] at hpre
        exact hpre
      · rw [if_neg hp]
        cases hsplit : splitFuel sep n rest with
        | nil => exact absurd hsplit (splitFuel_ne_nil sep n rest)
        | cons t ts =>
          have hlen : rest.length ≤ n := by
            have hlc : rest.length + 1 ≤ n + 1 := by simpa using h
            omega
          have hrt := ih rest hlen
          rw [hsplit] at hrt
          cases ts with
          | nil =>
            simp only [joinL] at hrt ⊢
            rw [hrt]
          | cons u us =>
            rw [joinL_cons_of_ne_nil sep (c :: t) (by simp)]
            rw [joinL_cons_of_ne_nil sep t (by simp)] at hrt
            rw [List.cons_append, List.cons_append, hrt]

theorem joinL_splitL (sep : List Char) (hsep : sep ≠ []) (s : List Char) :
    joinL sep (splitL sep s) = s :=
  joinL_splitFuel sep hsep s.length s Nat.le.refl

theorem renderSpec_data (sep : String) :
    ∀ (parts : List String),
      (renderSpec sep parts).data = joinL sep.data (parts.map String.data) := by
  intro parts
  induction parts with
  | nil => rfl
  | cons x xs ih =>
    cases xs with
    | nil => rfl
    | cons y ys =>
      simp only [renderSpec, List.map_cons, joinL, String.data_append] at ih ⊢
      rw [ih]

-- ===========================================================================
--      Claim theorems
-- ===========================================================================

/-- C1: rendering `join(S, D)` to text (`into_string`, or `write_fmt` into an
empty buffer) yields the empty string when `S` is empty, and otherwise the
first element's text followed, for each subsequent element in pull order, by
the separator's text then that element's text — exactly `len(S)-1` copies of
the separator, each strictly between two consecutive elements, never leading
or trailing (this is what `renderSpec` computes). -/
theorem joiner_render_interleaving {α Sep : Type} (S : List α) (D : Sep)
    (dI : α → String) (dS : Sep → String) :
    (join S D).into_string dI dS = renderSpec (dS D) (S.map dI)
    ∧ ((join S D).write_fmt dI dS strWrite "").1 = renderSpec (dS D) (S.map dI)
    ∧ (join ([] : List α) D).into_string dI dS = "" :=
  ⟨into_string_eq_renderSpec (join S D) dI dS,
   into_string_eq_renderSpec (join S D) dI dS, rfl⟩

/-- C2: for a cloneable cursor all consumption modes agree: the `Display`
rendering, `into_string`, `write_fmt` into an initially empty string buffer,
and `write_io` into an initially empty byte buffer all produce the same text
(`write_io`'s buffer holds exactly the UTF-8 encoding of that text, so
decoding it as UTF-8 gives the same text back). -/
theorem consumption_modes_agree {α Sep : Type} (j : Joiner α Sep)
    (dI : α → String) (dS : Sep → String) :
    j.displayString dI dS = j.into_string dI dS
    ∧ (j.write_fmt dI dS strWrite "").1 = j.into_string dI dS
    ∧ (j.write_io dI dS byteWrite []).1 = utf8 (j.into_string dI dS) := by
  refine ⟨rfl, rfl, ?_⟩
  rw [write_io_eq_write_fmt, write_fmt_eq_runPieces, runPieces_byteWrite,
    into_string_eq_concatAll_pieces]
  simp

/-- C3: `write_fmt`/`write_io` fail exactly when an underlying sink write
fails. Run against the instrumented sink (buffer plus write counter, failure
schedule `failAt`): when no write within the traversal is scheduled to fail,
all pieces are appended and the result is `Ok`; when the `k`-th write is the
first to fail with error `e`, the buffer holds exactly the pieces written
before it (partial output remains, no rollback), the counter stops at `k + 1`
(the failing write is the last call made — no further elements are pulled or
written), and `e` is propagated verbatim. -/
theorem write_error_propagation {α Sep : Type} {ε : Type} (j : Joiner α Sep)
    (dI : α → String) (dS : Sep → String) (failAt : Nat → Option ε) :
    j.write_fmt dI dS (instWrite failAt) ("", 0) =
      (match firstFailFrom failAt 0 (pieces j dI dS).length with
       | none => ((concatAll (pieces j dI dS), (pieces j dI dS).length), none)
       | some (k, e) =>
         ((concatAll ((pieces j dI dS).take k), k + 1), some e))
    ∧ j.write_io dI dS (instWrite failAt) ("", 0) =
      (match firstFailFrom failAt 0 (pieces j dI dS).length with
       | none => ((concatAll (pieces j dI dS), (pieces j dI dS).length), none)
       | some (k, e) =>
         ((concatAll ((pieces j dI dS).take k), k + 1), some e)) := by
  constructor
  · rw [write_fmt_eq_runPieces, runPieces_instWrite]
    rcases h : firstFailFrom failAt 0 (pieces j dI dS).length with _ | ⟨k, e⟩ <;>
      simp [h]
  · rw [write_io_eq_write_fmt, write_fmt_eq_runPieces, runPieces_instWrite]
    rcases h : firstFailFrom failAt 0 (pieces j dI dS).length with _ | ⟨k, e⟩ <;>
      simp [h]

/-- C4: `into_string` never fails: the string-buffer run of `write_fmt`
reports no error, and `into_string` returns the buffer (discarding that
result); construction (`Joiner::new`, `join`, `join_str`) always succeeds
with no validation — it just stores the cursor and separator — and an empty
cursor renders to the empty string. -/
theorem into_string_never_fails {α Sep T U : Type} (j : Joiner α Sep)
    (dI : α → String) (dS : Sep → String) (l : List α) (s : Sep)
    (els : List T) (sepU : U) :
    (j.write_fmt dI dS strWrite "").2 = none
    ∧ j.into_string dI dS = (j.write_fmt dI dS strWrite "").1
    ∧ (Joiner.new l s).iter = l
    ∧ (Joiner.new l s).sep = s
    ∧ join l s = Joiner.new l s
    ∧ join_str els sepU =
        Joiner.new (els.map DisplayWrapper.mk) (DisplayWrapper.mk sepU)
    ∧ (Joiner.new ([] : List α) s).into_string dI dS = "" := by
  refine ⟨?_, rfl, rfl, rfl, rfl, ?_, rfl⟩
  · rw [write_fmt_eq_runPieces, runPieces_strWrite]
  · simp [join_str, Joiner.new, drive_next]

/-- C5: the `Display` rendering does not consume or advance the `Joiner`'s
own cursor (it clones it): the `Joiner` coming out of `displayFmt` is the
original, rendering twice yields the same text both times, and a subsequent
`into_string` still yields the full joined text. -/
theorem display_nonconsuming {α Sep : Type} (j : Joiner α Sep)
    (dI : α → String) (dS : Sep → String) :
    (j.displayFmt dI dS strWrite "").2 = j
    ∧ ((j.displayFmt dI dS strWrite "").2).displayString dI dS =
        j.displayString dI dS
    ∧ ((j.displayFmt dI dS strWrite "").2).into_string dI dS =
        renderSpec (dS j.sep) (j.iter.map dI) :=
  ⟨rfl, rfl, into_string_eq_renderSpec j dI dS⟩

/-- C6: concrete `into_string` cases: `join(["foo","bar","baz"], ", ")`
renders to `"foo, bar, baz"`; the empty sequence renders to `""` (not the
separator, not an error); `join([""], ", ")` renders to `""`; and
`join(["",""], ", ")` renders to `", "`. -/
theorem into_string_concrete_cases :
    (join ["foo", "bar", "baz"] ", ").into_string id id = "foo, bar, baz"
    ∧ (join ([] : List String) ", ").into_string id id = ""
    ∧ (join [""] ", ").into_string id id = ""
    ∧ (join ["", ""] ", ").into_string id id = ", " := by
  refine ⟨by decide, rfl, by decide, by decide⟩

/-- C7: `DisplayWrapper(v)` renders exactly the borrowed string view of `v`,
unchanged (and cannot fail — it is a total function); consequently
`join_str` over string-like elements produces the same joined text as `join`
over the borrowed strings, e.g. `join_str(["foo","bar"], ", ")` renders to
`"foo, bar"`. -/
theorem display_wrapper_coercion {T U : Type} (asRefT : T → String)
    (asRefU : U → String) (v : T) (els : List T) (sep : U) :
    DisplayWrapper.display asRefT ⟨v⟩ = asRefT v
    ∧ (join_str els sep).into_string (DisplayWrapper.display asRefT)
        (DisplayWrapper.display asRefU)
      = (join (els.map asRefT) (asRefU sep)).into_string id id
    ∧ (join_str ["foo", "bar"] ", ").into_string (DisplayWrapper.display id)
        (DisplayWrapper.display id) = "foo, bar" := by
  refine ⟨rfl, ?_, by decide⟩
  rw [into_string_eq_renderSpec, into_string_eq_renderSpec]
  simp only [join_str, join, drive_next, List.map_map, List.map_id]
  rfl

/-- C8: `DisplayIter` yields exactly the `DisplayWrapper`-wrapped form of
each source element, in the same order and count, and transparently preserves
the source cursor's extra capabilities: backward traversal (`next_back`,
`nth_back`) yields the wrapped form of the source's backward results,
`len`/`size_hint` equal the source's, and cloning clones only the source
cursor's position. -/
theorem display_iter_transparent {T : Type} (l : List T) (n : Nat) :
    drive DisplayIter.next l.length (⟨l⟩ : DisplayIter T) =
        l.map DisplayWrapper.mk
    ∧ (drive DisplayIter.next l.length (⟨l⟩ : DisplayIter T)).length = l.length
    ∧ drive DisplayIter.next_back l.length (⟨l⟩ : DisplayIter T) =
        l.reverse.map DisplayWrapper.mk
    ∧ (DisplayIter.next_back (⟨l⟩ : DisplayIter T)).map
        (fun p => (p.1.val, p.2.iter)) = srcNextBack l
    ∧ (DisplayIter.nth_back n (⟨l⟩ : DisplayIter T)).map
        (fun p => (p.1.val, p.2.iter)) = srcNthBack n l
    ∧ (DisplayIter.nth n (⟨l⟩ : DisplayIter T)).map
        (fun p => (p.1.val, p.2.iter)) = srcNth n l
    ∧ DisplayIter.len (⟨l⟩ : DisplayIter T) = l.length
    ∧ DisplayIter.size_hint (⟨l⟩ : DisplayIter T) = (l.length, some l.length)
    ∧ DisplayIter.clone (⟨l⟩ : DisplayIter T) = ⟨l⟩ := by
  refine ⟨drive_next l, ?_, drive_next_back l, ?_, ?_, ?_, rfl, rfl, rfl⟩
  · rw [drive_next]; simp
  · rcases h : srcNextBack (T := T) l with _ | ⟨x, r⟩ <;>
      simp [DisplayIter.next_back, h]
  · rcases h : srcNthBack (T := T) n l with _ | ⟨x, r⟩ <;>
      simp [DisplayIter.nth_back, h]
  · rcases h : srcNth (T := T) n l with _ | ⟨x, r⟩ <;>
      simp [DisplayIter.nth, h]

/-- C9: round-trip with splitting: for a non-empty separator, rendering
`join(split(text, D), D)` to text yields the original text (`splitStr` is the
standard leftmost-match substring-splitting function). -/
theorem round_trip_split_join (text sep : String) (hsep : sep ≠ "") :
    (join (splitStr text sep) sep).into_string id id = text := by
  have hsepd : sep.data ≠ [] := fun hd => hsep (String.ext hd)
  apply String.ext
  rw [into_string_eq_renderSpec]
  simp only [join, List.map_id]
  rw [renderSpec_data, splitStr, List.map_map]
  have hid : String.data ∘ String.mk = (id : List Char → List Char) := rfl
  rw [hid, List.map_id]
  exact joinL_splitL sep.data hsepd text.data

/-- Witness for C9 at a concrete input. -/
theorem round_trip_split_join_witness :
    (join (splitStr "foo, bar" ", ") ", ").into_string id id = "foo, bar" :=
  round_trip_split_join "foo, bar" ", " (by decide)

/-- C10: the `Debug` rendering uses the same no-leading/no-trailing
interleaving as `Display`, formatting each element with its `Debug`
implementation while the separator is emitted with its `Display`
implementation — verbatim, never quoted or escaped. -/
theorem debug_display_separator {α Sep : Type} (j : Joiner α Sep)
    (dbgI : α → String) (dS : Sep → String) :
    j.debugString dbgI dS = renderSpec (dS j.sep) (j.iter.map dbgI)
    ∧ j.debugString dbgI dS = j.displayString dbgI dS :=
  ⟨into_string_eq_renderSpec j dbgI dS, rfl⟩

end JoinString
